import Mathlib

/-!
# WESTSeer: research scope cache and task runner

A shallow embedding of `src/src/ResearchScope.cpp` and `src/src/AbstractTask.cpp`.

* C++ `int` values are integers reduced into the 32-bit two's complement range by `toInt32`,
  `size_t` values are naturals reduced modulo `2 ^ 64` by `toSizeT`.
* An out-of-range `operator[]`, a division by zero and a thrown `std::invalid_argument` are
  results of type `Fault`; functions that can meet one return `Except Fault _`.
* The SQLite file is a `Store`; the text handed to `sqlite3_exec` is a list of statements, and
  the statements are executed one after the other as `sqlite3_exec` does.
* SQL text is given its parsed meaning. The keywords of a scope, which are spliced into
  string literals, are taken to contain no quote character. The texts of a publication come
  from the external source and are not: a publication text with a quote character ends its
  literal early and makes the `INSERT INTO publications` statement fail.
  `sqlite3_open` is taken to succeed on a store with the schema.
* Publication ids are `uint64_t` values on which no arithmetic is done; they are naturals.
  Column `id` of `publications` is `INTEGER PRIMARY KEY` and takes ids below `2 ^ 63` only.
-/

namespace WESTSeer

/-! ## Machine integers and faults -/

/-- What a C++ expression can do instead of yielding a value. -/
inductive Fault where
  | outOfRange
  | divideByZero
  | invalidArgument
  deriving DecidableEq, Repr

/-- Conversion of an integer value to `int` (32-bit two's complement): the residue modulo
`2 ^ 32`, taken in `-2 ^ 31 .. 2 ^ 31 - 1`. -/
def toInt32 (x : Int) : Int :=
  if x % 2 ^ 32 ≤ 2 ^ 31 - 1 then x % 2 ^ 32 else x % 2 ^ 32 - 2 ^ 32

/-- Conversion of an integer value to `size_t` (64-bit unsigned). -/
def toSizeT (x : Int) : Nat := (x % 2 ^ 64).toNat

/-! ## Strings -/

/-- Lexicographic comparison of character sequences, `std::string::operator<`
(a proper prefix is smaller). -/
def ltChars : List Char → List Char → Bool
  | _, [] => false
  | [], _ :: _ => true
  | a :: as, b :: bs =>
    if a.toNat < b.toNat then true
    else if b.toNat < a.toNat then false
    else ltChars as bs

/-- Comparison `s1 < s2` of two `std::string`s. -/
def strLt (s1 s2 : String) : Bool := ltChars s1.data s2.data

/-! ## ResearchScope: keyword lists and combinations -/

/-- Data members of `ResearchScope`: the store path and the two keyword vectors. -/
structure ResearchScope where
  path : String
  kws1 : List String
  kws2 : List String
  deriving Repr

/-- The serialization written by both branches of `getCombination` and `getCombinations`:
`s1 & s2` when `s1 < s2`, otherwise `s2 & s1`. -/
def serializePair (s1 s2 : String) : String :=
  if strLt s1 s2 then s1 ++ "&" ++ s2 else s2 ++ "&" ++ s1

/-- `ResearchScope::numCombinations`: the `size_t` product of the two sizes, returned as `int`. -/
def numCombinations (s : ResearchScope) : Int :=
  toInt32 ((s.kws1.length * s.kws2.length % 2 ^ 64 : Nat) : Int)

/-- `ResearchScope::getCombination`.
`i % numCombinations()` is the truncating `int` remainder; `temp % _kws1.size()` and
`temp /= _kws1.size()` are computed in `size_t` and converted back to `int`; the two
`operator[]` calls convert their `int` argument to `size_t`. -/
def getCombination (s : ResearchScope) (i : Int) : Except Fault String :=
  if numCombinations s = 0 then .error .divideByZero
  else
    let temp := Int.tmod i (numCombinations s)
    let i1 := toInt32 ((toSizeT temp % s.kws1.length : Nat) : Int)
    let temp := toInt32 ((toSizeT temp / s.kws1.length : Nat) : Int)
    let i2 := temp
    match s.kws1[toSizeT i1]?, s.kws2[toSizeT i2]? with
    | some a, some b => .ok (serializePair a b)
    | _, _ => .error .outOfRange


deriving instance DecidableEq for Except

/-! ## The store: tables, statements and `sqlite3_exec` -/

/-- A `Publication` object as `ResearchScope.cpp` reads it through its accessors. -/
structure Publication where
  id : Nat
  year : Int
  title : String
  abstract : String
  source : String
  language : String
  authors : List String
  refIds : List Nat
  deriving DecidableEq, Repr

/-- The type `std::map<uint64_t, Publication>`: entries in ascending key order, one per key. -/
abbrev PubMap := List (Nat × Publication)

/-- Assignment `m[k] = p` on a `std::map`. -/
def PubMap.assign (k : Nat) (p : Publication) : PubMap → PubMap
  | [] => [(k, p)]
  | (k', p') :: m =>
    if k < k' then (k, p) :: (k', p') :: m
    else if k = k' then (k, p) :: m
    else (k', p') :: PubMap.assign k p m

/-- A row of table `publications`. Column `authors` holds the comma-joined author names;
column `ref_ids` holds comma-joined decimal ids and is kept as the list of those ids. -/
structure PubRow where
  id : Nat
  year : Int
  title : String
  abstract : String
  source : String
  language : String
  authors : String
  refIds : List Nat
  deriving DecidableEq, Repr

/-- A row of table `openalex_queries` (the Query Record); `ids` and `ref_ids` are kept as the
lists whose comma-joined decimal text the columns hold. -/
structure QueryRow where
  combination : String
  year : Int
  updateTime : Int
  ids : List Nat
  refIds : List Nat
  deriving DecidableEq, Repr

/-- A row of table `openalex_tokens` (the Token Record). -/
structure TokenRow where
  combination : String
  year : Int
  updateTime : Int
  deriving DecidableEq, Repr

/-- The three tables of the store that `load`, `save` and `getMissingRefIds` touch.
`publications` has primary key `id`; the other two have primary key `(combination, year)`. -/
structure Store where
  publications : List PubRow
  queries : List QueryRow
  tokens : List TokenRow
  deriving DecidableEq, Repr

/-- A column value as the callback receives it: a number, a text, or the text of a
comma-joined id list. -/
inductive Cell where
  | num (n : Int)
  | text (s : String)
  | idList (ids : List Nat)
  deriving DecidableEq, Repr

/-- One result row collected by `sqliteCallback`: column name to value. -/
abbrev Row := List (String × Cell)

/-- Modelled from the spec: `CallbackData` and `sqliteCallback` (CallbackData.h is not among
the sources). The callback appends one row per result row, a row maps each selected column
name to the column's text, and the lookup `result["col"]` is `std::map::operator[]`, so a
column that is absent reads as the empty string. -/
def Row.col (r : Row) (name : String) : Cell :=
  match r.lookup name with
  | some c => c
  | none => .text ""

/-- Value of a run of decimal digits. -/
def digitsValue (ds : List Char) : Nat :=
  ds.foldl (fun n c => 10 * n + (c.toNat - 48)) 0

/-- The conversion `std::stoull` on a column value: a number converts to itself (a negative
one wraps as `strtoull` does), an id list text to its leading id, any other text to the value
of its leading digits; `std::invalid_argument` is thrown when there is no leading digit. -/
def stoull : Cell → Except Fault Nat
  | .num n => if 0 ≤ n then .ok n.toNat else .ok (toSizeT n)
  | .idList (n :: _) => .ok n
  | .idList [] => .error .invalidArgument
  | .text s =>
    match s.data.takeWhile Char.isDigit with
    | [] => .error .invalidArgument
    | d :: ds => .ok (digitsValue (d :: ds))

/-- The ids named by a text spliced between the parentheses of `id IN (...)`; `none` stands
for a text that is not a list of integer literals (SQLite accepts the empty list). -/
def inListOf : Cell → Option (List Nat)
  | .idList ids => some ids
  | .num n => if 0 ≤ n then some [n.toNat] else some []
  | .text s => if s = "" then some [] else none

/-- The SQL statements that `ResearchScope.cpp` writes into its string streams. -/
inductive Stmt where
  /-- Statement `SELECT combination, year, ids FROM openalex_queries WHERE combination = c AND year = y;` -/
  | selectQueryIds (c : String) (y : Int)
  /-- Statement `SELECT combination, year, ref_ids FROM openalex_queries WHERE combination = c AND year = y;` -/
  | selectQueryRefIds (c : String) (y : Int)
  /-- Statement `SELECT combination, year FROM openalex_tokens WHERE combination = c AND year = y;` -/
  | selectToken (c : String) (y : Int)
  /-- Statement `SELECT id FROM publications WHERE id IN (...);` -/
  | selectPubIds (inList : Option (List Nat))
  /-- Statement `SELECT id, year, title, abstract, source, language, authors, ref_ids FROM publications
  WHERE id in (...);` -/
  | selectPubs (inList : Option (List Nat))
  /-- Statement `INSERT INTO publications(...) VALUES (...),(...);` -/
  | insertPubs (rows : List PubRow)
  /-- Statement `INSERT INTO openalex_queries(combination,year,update_time,ids,ref_ids) VALUES (...);` -/
  | insertQuery (row : QueryRow)
  /-- Statement `INSERT INTO openalex_tokens(combination,year,update_time) VALUES (...);` -/
  | insertToken (row : TokenRow)
  deriving DecidableEq, Repr

/-- Result row of a `SELECT` over `publications` with all eight columns. -/
def PubRow.cells (r : PubRow) : Row :=
  [("id", .num r.id), ("year", .num r.year), ("title", .text r.title),
   ("abstract", .text r.abstract), ("source", .text r.source), ("language", .text r.language),
   ("authors", .text r.authors), ("ref_ids", .idList r.refIds)]

/-- A text that can be written as it is between the quotes of an SQL string literal: it has
no quote character (character 39). -/
def quoteFree (s : String) : Bool := !(s.data.contains (Char.ofNat 39))

/-- The rows that SQLite accepts from the `INSERT INTO publications` statement of `save(pubs)`,
which writes the id as a decimal literal and each text raw between quotes: the id fits the
signed 64-bit `INTEGER PRIMARY KEY` (a larger literal is a real number, a datatype mismatch),
and no text has a quote character (a quote ends the literal early, a syntax error). -/
def PubRow.insertable (r : PubRow) : Bool :=
  decide (r.id < 2 ^ 63) && quoteFree r.title && quoteFree r.abstract && quoteFree r.source &&
    quoteFree r.language && quoteFree r.authors

/-- One statement run by SQLite: the store afterwards and the result rows, or `none` when the
statement fails (syntax error, datatype mismatch, or a primary key that is already taken; a
failed statement changes nothing). -/
def execStmt (db : Store) : Stmt → Option (Store × List Row)
  | .selectQueryIds c y =>
    some (db, (db.queries.filter (fun q => q.combination = c ∧ q.year = y)).map
      (fun q => [("combination", .text q.combination), ("year", .num q.year),
        ("ids", .idList q.ids)]))
  | .selectQueryRefIds c y =>
    some (db, (db.queries.filter (fun q => q.combination = c ∧ q.year = y)).map
      (fun q => [("combination", .text q.combination), ("year", .num q.year),
        ("ref_ids", .idList q.refIds)]))
  | .selectToken c y =>
    some (db, (db.tokens.filter (fun q => q.combination = c ∧ q.year = y)).map
      (fun q => [("combination", .text q.combination), ("year", .num q.year)]))
  | .selectPubIds none => none
  | .selectPubIds (some ids) =>
    some (db, (db.publications.filter (fun r => r.id ∈ ids)).map (fun r => [("id", .num r.id)]))
  | .selectPubs none => none
  | .selectPubs (some ids) =>
    some (db, (db.publications.filter (fun r => r.id ∈ ids)).map PubRow.cells)
  | .insertPubs rows =>
    if rows ≠ [] ∧ (rows.map PubRow.id).Nodup ∧
        (∀ r ∈ rows, r.id ∉ db.publications.map PubRow.id) ∧
        ∀ r ∈ rows, r.insertable = true then
      some ({ db with publications := db.publications ++ rows }, [])
    else none
  | .insertQuery row =>
    if ∃ q ∈ db.queries, q.combination = row.combination ∧ q.year = row.year then none
    else some ({ db with queries := db.queries ++ [row] }, [])
  | .insertToken row =>
    if ∃ q ∈ db.tokens, q.combination = row.combination ∧ q.year = row.year then none
    else some ({ db with tokens := db.tokens ++ [row] }, [])

/-- The call `sqlite3_exec` on the text of a string stream: the statements run in order, each result
row is handed to the callback (which appends it to `data.results`), and the first failing
statement stops the run. The Boolean is `rc == SQLITE_OK`. -/
def sqlite3_exec (db : Store) : List Stmt → Bool × Store × List Row
  | [] => (true, db, [])
  | st :: rest =>
    match execStmt db st with
    | none => (false, db, [])
    | some (db1, rows) =>
      match sqlite3_exec db1 rest with
      | (rc, db2, rows2) => (rc, db2, rows ++ rows2)

/-! ## ResearchScope: load, save and the citation frontier

A string stream `ss` is the list of statements written into it so far. `ss.clear()` resets
the stream's error flags and leaves its text as it is, so a statement written after
`ss.clear()` is appended to the earlier one and `ss.str()` is the text of both. The time read
by `time(&t)` is the parameter `t`. -/

/-- The loop `oldIdSet.insert(std::stoull(result["id"]))` over `data.results`
(lines 348-351 and 533-536); only membership in the set is used afterwards. -/
def collectIds : List Row → Except Fault (List Nat)
  | [] => .ok []
  | r :: rs =>
    match stoull (r.col "id") with
    | .error e => .error e
    | .ok n =>
      match collectIds rs with
      | .error e => .error e
      | .ok ids => .ok (n :: ids)

/-- The values written by the `INSERT INTO publications` statement for one publication;
the authors are joined with commas. -/
def pubRowOf (p : Publication) : PubRow :=
  { id := p.id, year := p.year, title := p.title, abstract := p.abstract, source := p.source,
    language := p.language, authors := String.intercalate "," p.authors, refIds := p.refIds }

/-- The method `ResearchScope::save(const std::map<uint64_t, Publication> &pubs)`. -/
def save_pubs (db : Store) (pubs : PubMap) : Except Fault (Bool × Store) :=
  -- step 1: find old ids
  let ss : List Stmt := [.selectPubIds (some (pubs.map Prod.fst))]
  match sqlite3_exec db ss with
  | (false, db1, _) => .ok (false, db1)
  | (true, db1, results) =>
    if results.length = pubs.length then .ok (true, db1)
    else
      match collectIds results with
      | .error e => .error e
      | .ok oldIdSet =>
        -- step 2: insert publications with new ids
        let ss := ss ++
          [.insertPubs ((pubs.filter (fun kp => kp.1 ∉ oldIdSet)).map (fun kp => pubRowOf kp.2))]
        match sqlite3_exec db1 ss with
        | (rc, db2, _) => .ok (rc, db2)

/-- Insertion into a `std::set<uint64_t>` (ascending, no duplicates). -/
def setInsert (x : Nat) : List Nat → List Nat
  | [] => [x]
  | y :: ys =>
    if x < y then x :: y :: ys
    else if x = y then y :: ys
    else y :: setInsert x ys

/-- Step 1 of `save(idxComb, y, pubsOfY)`: the `std::set` of all `refIds()` of the map. -/
def refIdSet (pubsOfY : PubMap) : List Nat :=
  pubsOfY.foldl (fun refIds idToPub => idToPub.2.refIds.foldl (fun acc r => setInsert r acc) refIds) []

/-- The method `ResearchScope::save(int idxComb, const int y,
const std::map<uint64_t, Publication> &pubsOfY)`; the result of the inner `save(pubsOfY)` is
not looked at. -/
def save_query (s : ResearchScope) (t : Int) (db : Store) (idxComb y : Int) (pubsOfY : PubMap) :
    Except Fault (Bool × Store) :=
  match save_pubs db pubsOfY with
  | .error e => .error e
  | .ok (_, db1) =>
    -- step 1: get ref ids
    let refIds := refIdSet pubsOfY
    -- step 2: save ids and ref ids
    match getCombination s idxComb with
    | .error e => .error e
    | .ok combination =>
      let ss : List Stmt := [.insertQuery
        { combination := combination, year := y, updateTime := toInt32 t,
          ids := pubsOfY.map Prod.fst, refIds := refIds }]
      match sqlite3_exec db1 ss with
      | (rc, db2, _) => .ok (rc, db2)

/-- The method `ResearchScope::save(int idxComb, const int y)`. -/
def save_token (s : ResearchScope) (t : Int) (db : Store) (idxComb y : Int) :
    Except Fault (Bool × Store) :=
  match getCombination s idxComb with
  | .error e => .error e
  | .ok combination =>
    let ss : List Stmt := [.insertToken
      { combination := combination, year := y, updateTime := toInt32 t }]
    match sqlite3_exec db ss with
    | (rc, db1, _) => .ok (rc, db1)

/-- The method `ResearchScope::load(int idxComb, const int y)`. -/
def load_token (s : ResearchScope) (db : Store) (idxComb y : Int) : Except Fault Bool :=
  match getCombination s idxComb with
  | .error e => .error e
  | .ok combination =>
    let ss : List Stmt := [.selectToken combination y]
    match sqlite3_exec db ss with
    | (rc, _, results) =>
      if rc = false ∨ results.length = 0 then .ok false else .ok true

/-- The loop `Publication pub(result); pubsOfY[pub.id()] = pub;` over `data.results`
(lines 274-278). The constructor `Publication(result)` is not among the sources and is the
parameter `mkPub`. -/
def fillPubs (mkPub : Row → Except Fault Publication) : List Row → PubMap → Except Fault PubMap
  | [], pubsOfY => .ok pubsOfY
  | result :: rest, pubsOfY =>
    match mkPub result with
    | .error e => .error e
    | .ok pub => fillPubs mkPub rest (PubMap.assign pub.id pub pubsOfY)

/-- The method `ResearchScope::load(int idxComb, const int y,
std::map<uint64_t, Publication> &pubsOfY)`; `pubsOfY` is cleared first, so the map returned
with `false` is empty. The second `sqlite3_exec` receives the text of both statements. -/
def load_pubs (mkPub : Row → Except Fault Publication) (s : ResearchScope) (db : Store)
    (idxComb y : Int) : Except Fault (Bool × PubMap) :=
  match getCombination s idxComb with
  | .error e => .error e
  | .ok combination =>
    let ss : List Stmt := [.selectQueryIds combination y]
    match sqlite3_exec db ss with
    | (true, _, r0 :: _) =>
      let strIds := r0.col "ids"
      -- data.results.clear(); ss.clear();
      let ss := ss ++ [.selectPubs (inListOf strIds)]
      match sqlite3_exec db ss with
      | (false, _, _) => .ok (false, [])
      | (true, _, results) =>
        match fillPubs mkPub results [] with
        | .error e => .error e
        | .ok pubsOfY => .ok (true, pubsOfY)
    | _ => .ok (false, [])

/-- Modelled from the spec: `splitString` (StringProcessing.h is not among the sources),
followed by the `std::stoull` loop of lines 512-515. The spec has `ref_ids` stored as a
delimiter-joined text list: splitting the text at the commas gives back the joined ids, and
the empty text has no part. -/
def splitIds : Cell → Except Fault (List Nat)
  | .idList ids => .ok ids
  | .text s =>
    if s = "" then .ok []
    else match stoull (.text s) with
      | .error e => .error e
      | .ok n => .ok [n]
  | .num n =>
    match stoull (.num n) with
    | .error e => .error e
    | .ok n => .ok [n]

/-- The method `ResearchScope::getMissingRefIds(int idxComb, const int y,
std::vector<uint64_t> &newRefIds)`; `newRefIds` is written only on the path that returns
`true`. The second `sqlite3_exec` receives the text of both statements. -/
def getMissingRefIds (s : ResearchScope) (db : Store) (idxComb y : Int) (newRefIds : List Nat) :
    Except Fault (Bool × List Nat) :=
  -- step 1: get ref ids of combination and year
  match getCombination s idxComb with
  | .error e => .error e
  | .ok combination =>
    let ss : List Stmt := [.selectQueryRefIds combination y]
    match sqlite3_exec db ss with
    | (true, _, r0 :: _) =>
      let refIdsStr := r0.col "ref_ids"
      match splitIds refIdsStr with
      | .error e => .error e
      | .ok refIds =>
        -- step 2: find old ids; ss.clear(); data.results.clear();
        let ss := ss ++ [.selectPubIds (inListOf refIdsStr)]
        match sqlite3_exec db ss with
        | (true, _, result :: results) =>
          match collectIds (result :: results) with
          | .error e => .error e
          | .ok oldRefIds =>
            -- step 3: output new ids
            .ok (true, refIds.filter (fun id => id ∉ oldRefIds))
        | _ => .ok (false, newRefIds)
    | _ => .ok (false, newRefIds)

/-! ## AbstractTask: the task chain and its worker

A chain is the list of its tasks in link order (`_next` of each task is the task after it;
the chain has no cycle). The data the tasks work on is a value of type `σ`. The static
`_cancelled` flag is written by `cancel()` on another thread; the worker sees it only through
its `_cancelled.load()` calls, and `cancel i` is the value its `i`-th load returns. -/

/-- The virtual interface of `AbstractTask`: `name`, `finished`, `numSteps`, `doStep`. -/
structure AbstractTask (σ : Type) where
  name : String
  finished : σ → Bool
  numSteps : σ → Int
  doStep : Int → σ → σ

/-- What the worker does that can be observed: a call `doStep(stepId)` on the task at link
position `task` (the head is 0), or a call `report(label, taskId, numTasks, progress)` on the
progress reporter. -/
inductive Event where
  | doStep (task : Nat) (stepId : Int)
  | report (label : String) (taskId numTasks progress : Int)
  deriving DecidableEq, Repr

/-- The worker thread: the data of the tasks, the calls made so far (oldest first), the
number of loads of `_cancelled` so far, and `_cancelled` as the worker last read or wrote it. -/
structure Worker (σ : Type) where
  state : σ
  events : List Event
  loads : Nat
  cancelled : Bool
  deriving DecidableEq, Repr

/-- Modelled from the spec: `getTaskId()` (AbstractTask.h is not among the sources), the
position of the task in its chain, counted from 1 as the spec counts tasks. -/
def getTaskId (pos : Nat) : Int := (pos : Int) + 1

/-- Modelled from the spec: `getNumTasks()` (AbstractTask.h is not among the sources), the
length of the chain the task is linked into. -/
def getNumTasks {σ : Type} (chain : List (AbstractTask σ)) : Int := (chain.length : Int)

/-- One `_cancelled.load()` by the worker. -/
def Worker.load {σ : Type} (cancel : Nat → Bool) (w : Worker σ) : Worker σ :=
  { w with loads := w.loads + 1, cancelled := cancel w.loads }

/-- The call `_progressReporter->report(...)`, made only when a reporter is installed. -/
def Worker.report {σ : Type} (reporter : Bool) (label : String) (taskId numTasks progress : Int)
    (w : Worker σ) : Worker σ :=
  if reporter then { w with events := w.events ++ [Event.report label taskId numTasks progress] }
  else w

/-- The expression `100 * (stepId + 1) / n` in `int` arithmetic. -/
def taskProgress (stepId n : Int) : Int := Int.tdiv (toInt32 (100 * (stepId + 1))) n

/-- The `for (int stepId = 0; stepId < n; stepId++)` loop of the worker lambda, entered with
`remaining` iterations left before `stepId` reaches `n`. The calls `doStep`, `name`,
`getTaskId` and `getNumTasks` go to the captured `this`, at link position `pos`.
The Boolean is `true` when the lambda has returned from inside the loop. -/
def stepLoop {σ : Type} (cancel : Nat → Bool) (reporter : Bool) (this : AbstractTask σ)
    (pos : Nat) (numTasks n : Int) : (remaining : Nat) → (stepId : Int) → Worker σ →
    Bool × Worker σ
  | 0, _, w => (false, w)
  | remaining + 1, stepId, w =>
    let w := { w with state := this.doStep stepId w.state,
                      events := w.events ++ [Event.doStep pos stepId] }
    let w :=
      if reporter then
        let w := w.load cancel
        if w.cancelled then
          w.report reporter "Cancelled" (getTaskId pos) numTasks (taskProgress stepId n)
        else
          w.report reporter this.name (getTaskId pos) numTasks (taskProgress stepId n)
      else w
    let w := w.load cancel
    if w.cancelled then (true, { w with cancelled := false })
    else stepLoop cancel reporter this pos numTasks n remaining (stepId + 1) w

/-- The `while (task != NULL)` loop of the worker lambda and the statement after it. The list
holds the task that `task` points to and the tasks linked after it; every call inside the
loop body is made on the captured `this`, only `task = task->_next` uses `task`. -/
def workerLoop {σ : Type} (cancel : Nat → Bool) (reporter : Bool) (this : AbstractTask σ)
    (pos : Nat) (numTasks : Int) : List (AbstractTask σ) → Worker σ → Worker σ
  | [], w => w.report reporter "Done" numTasks numTasks 0
  | _ :: next, w =>
    let w := w.load cancel
    if w.cancelled then
      { w.report reporter "Cancelled" (getTaskId pos) numTasks 0 with cancelled := false }
    else
      let w := w.report reporter this.name (getTaskId pos) numTasks 0
      let n := this.numSteps w.state
      match stepLoop cancel reporter this pos numTasks n n.toNat 0 w with
      | (true, w) => w
      | (false, w) => workerLoop cancel reporter this pos numTasks next w

/-- The method `AbstractTask::runAll` called on the task at link position `pos` of `chain`,
the list being that task and the tasks linked after it; the result is the worker after the
thread it started has run to its end. `finalize()` finds no earlier thread and clears
`_cancelled`. -/
def runAllFrom {σ : Type} (cancel : Nat → Bool) (reporter : Bool) (chain : List (AbstractTask σ)) :
    (pos : Nat) → List (AbstractTask σ) → Worker σ → Worker σ
  | _, [], w => w
  | pos, this :: next, w =>
    let w := { w with cancelled := false }
    if this.numSteps w.state > 0 ∧ this.finished w.state = false then
      workerLoop cancel reporter this pos (getNumTasks chain) (this :: next) w
    else if next.isEmpty = false then
      runAllFrom cancel reporter chain (pos + 1) next w
    else
      w.report reporter "Done" (getNumTasks chain) (getNumTasks chain) 100

/-- The call `runAll()` on the head of a chain. -/
def runAll {σ : Type} (cancel : Nat → Bool) (reporter : Bool) (chain : List (AbstractTask σ))
    (w : Worker σ) : Worker σ :=
  runAllFrom cancel reporter chain 0 chain w

/-- The progress events among the observed calls, as `(label, taskId, numTasks, progress)`. -/
def progressEvents : List Event → List (String × Int × Int × Int)
  | [] => []
  | .doStep _ _ :: es => progressEvents es
  | .report label taskId numTasks progress :: es =>
    (label, taskId, numTasks, progress) :: progressEvents es

/-- The `doStep` calls among the observed calls, as `(link position, stepId)`. -/
def stepCalls : List Event → List (Nat × Int)
  | [] => []
  | .doStep task stepId :: es => (task, stepId) :: stepCalls es
  | .report _ _ _ _ :: es => stepCalls es

/-! ## Concrete inputs

The scope, publications and stores of the spec's end-to-end scenario, and task chains whose
tasks have a fixed number of steps. -/

/-- The scope `kws1 = {ai}`, `kws2 = {health, law}`, which has two combinations. -/
def scenarioScope : ResearchScope :=
  { path := "westseer.db", kws1 := ["ai"], kws2 := ["health", "law"] }

/-- Publication 1, which references publication 5. -/
def pub1 : Publication :=
  { id := 1, year := 2020, title := "t1", abstract := "a1", source := "s1", language := "en",
    authors := ["x", "y"], refIds := [5] }

/-- Publication 2, which references nothing. -/
def pub2 : Publication :=
  { id := 2, year := 2020, title := "t2", abstract := "a2", source := "s2", language := "en",
    authors := ["z"], refIds := [] }

/-- Publication 5. -/
def pub5 : Publication :=
  { id := 5, year := 2019, title := "t5", abstract := "a5", source := "s5", language := "en",
    authors := ["z"], refIds := [] }

/-- The store with the schema and no rows. -/
def emptyStore : Store := { publications := [], queries := [], tokens := [] }

/-- The store after `save(0, 2020, {1: pub1, 2: pub2})` at time 1700000000 on `emptyStore`. -/
def storeAfterFetch : Store :=
  { publications := [pubRowOf pub1, pubRowOf pub2],
    queries := [{ combination := "ai&health", year := 2020, updateTime := 1700000000,
                  ids := [1, 2], refIds := [5] }],
    tokens := [] }

/-- The store after `save(0, 2020, {})` at time 1700000000 on `emptyStore`: a Query Record
whose `ids` and `ref_ids` are empty. -/
def storeAfterEmptyFetch : Store :=
  { publications := [],
    queries := [{ combination := "ai&health", year := 2020, updateTime := 1700000000,
                  ids := [], refIds := [] }],
    tokens := [] }

/-- A task with a fixed number of steps that is never finished; its `doStep(stepId)` appends
`(name, stepId)` to a log of the work done. -/
def loggingTask (name : String) (n : Int) : AbstractTask (List (String × Int)) :=
  { name := name, finished := fun _ => false, numSteps := fun _ => n,
    doStep := fun stepId log => log ++ [(name, stepId)] }

/-- The worker before anything has happened, on an empty log. -/
def freshWorker : Worker (List (String × Int)) :=
  { state := [], events := [], loads := 0, cancelled := false }

/-- The progress value of a `report` call; a `doStep` call has none. -/
def progressOf : Event → Option Int
  | .doStep _ _ => none
  | .report _ _ _ progress => some progress

/-- What the worker does for one chain element when the step count read is `n`, as progress
values: the report at 0, then for each `stepId` below `n` the step and the report after it. -/
def blockShape (n : Int) : List (Option Int) :=
  some 0 :: (List.range n.toNat).flatMap (fun k => [none, some (taskProgress (k : Int) n)])

/-! ## ResearchScope: the combination list and the constructors -/

deriving instance DecidableEq for ResearchScope

/-- The entries that `ResearchScope::getCombinations` writes, in the order of its two loops
(`i1` over `_kws1` outside, `i2` over `_kws2` inside). -/
def combinationEntries (s : ResearchScope) : List String :=
  s.kws1.flatMap (fun s1 =>
    s.kws2.map (fun s2 => if strLt s1 s2 then s1 ++ "&" ++ s2 else s2 ++ "&" ++ s1))

/-- The method `ResearchScope::getCombinations`: a comma is written before every entry but
the first. -/
def getCombinations (s : ResearchScope) : String :=
  String.intercalate "," (combinationEntries s)

/-- Insertion of a string into an ascending vector, before the first element it is smaller
than. -/
def insertAscending (x : String) : List String → List String
  | [] => [x]
  | y :: ys => if strLt x y then x :: y :: ys else y :: insertAscending x ys

/-- The call `std::sort(v.begin(), v.end())` on a vector of strings: the ascending
rearrangement of `v` under `operator<`. Equal strings cannot be told apart, so the result
does not depend on the sorting algorithm. -/
def stdSort (v : List String) : List String :=
  v.foldr insertAscending []

/-- The constructor `ResearchScope(path, kws1, kws2)`. The helpers `splitString` and
`normalize` of StringProcessing.h are not among the sources and are parameters. -/
def ResearchScope.ofKeywordLists (splitString : String → String → List String)
    (normalize : String → String) (path kws1 kws2 : String) : ResearchScope :=
  { path := path,
    kws1 := stdSort (splitString (normalize kws1) ","),
    kws2 := stdSort (splitString (normalize kws2) ",") }

/-- The constructor `ResearchScope(path, keywords)`; it throws `std::invalid_argument` unless
`keywords` splits at `;` into exactly two parts. -/
def ResearchScope.ofKeywords (splitString : String → String → List String)
    (path keywords : String) : Except Fault ResearchScope :=
  match splitString keywords ";" with
  | [k1, k2] =>
    .ok { path := path,
          kws1 := stdSort (splitString k1 ","),
          kws2 := stdSort (splitString k2 ",") }
  | _ => .error .invalidArgument

/-- The parts of a character sequence between the occurrences of a delimiter character. -/
def splitChars (d : Char) : List Char → List (List Char)
  | [] => [[]]
  | c :: cs =>
    if c = d then [] :: splitChars d cs
    else
      match splitChars d cs with
      | [] => [[c]]
      | p :: ps => (c :: p) :: ps

/-- Modelled from the spec: `splitString` (StringProcessing.h is not among the sources), for
a delimiter of one character. The spec has the keyword lists comma-joined and the two lists
joined by a semicolon: splitting gives the parts between the delimiters, and the empty text
has no part. -/
def splitString (s delim : String) : List String :=
  match delim.data with
  | [d] => if s = "" then [] else (splitChars d s.data).map String.mk
  | _ => [s]

/-! ## The worker's calls in closed form -/

/-- The calls of one pass of the worker's loop body on task `t` (at link position `pos`) from
state `s` when no cancellation is seen: the report at 0, then for each `stepId` below
`t.numSteps s` the call `doStep(stepId)` and the report after it. -/
def blockEvents {σ : Type} (t : AbstractTask σ) (pos : Nat) (numTasks : Int) (s : σ) :
    List Event :=
  Event.report t.name (getTaskId pos) numTasks 0 ::
    (List.range (t.numSteps s).toNat).flatMap (fun k =>
      [Event.doStep pos (k : Int),
       Event.report t.name (getTaskId pos) numTasks (taskProgress (k : Int) (t.numSteps s))])

/-- The state after the steps `0 .. t.numSteps s - 1` of task `t` have run from state `s`. -/
def blockState {σ : Type} (t : AbstractTask σ) (s : σ) : σ :=
  (List.range (t.numSteps s).toNat).foldl (fun st (k : Nat) => t.doStep (k : Int) st) s

/-- The calls of `m` passes in a row on the same task `t`, each pass starting from the state
the one before it left. -/
def repeatedBlocks {σ : Type} (t : AbstractTask σ) (pos : Nat) (numTasks : Int) :
    Nat → σ → List Event
  | 0, _ => []
  | m + 1, s => blockEvents t pos numTasks s ++ repeatedBlocks t pos numTasks m (blockState t s)

/-! # Theorems -/

/-! ## Combination indexing -/

theorem toInt32_of_nonneg_lt {x : Int} (h0 : 0 ≤ x) (h1 : x < 2 ^ 31) : toInt32 x = x := by
  unfold toInt32
  have : x % 2 ^ 32 = x := Int.emod_eq_of_lt h0 (by omega)
  rw [this, if_pos (by omega)]

theorem toSizeT_natCast {n : Nat} (h : n < 2 ^ 64) : toSizeT (n : Int) = n := by
  unfold toSizeT
  have : ((n : Int)) % 2 ^ 64 = n := Int.emod_eq_of_lt (by omega) (by exact_mod_cast h)
  rw [this]; simp

theorem numCombinations_eq (s : ResearchScope) (hN : s.kws1.length * s.kws2.length < 2 ^ 31) :
    numCombinations s = ((s.kws1.length * s.kws2.length : Nat) : Int) := by
  unfold numCombinations
  have h64 : s.kws1.length * s.kws2.length % 2 ^ 64 = s.kws1.length * s.kws2.length :=
    Nat.mod_eq_of_lt (by omega)
  rw [h64]
  exact toInt32_of_nonneg_lt (Int.natCast_nonneg _) (by exact_mod_cast hN)

theorem getCombination_of_lt (s : ResearchScope) (hN : s.kws1.length * s.kws2.length < 2 ^ 31)
    (i1 i2 : Nat) (a b : String) (ha : s.kws1[i1]? = some a) (hb : s.kws2[i2]? = some b) :
    getCombination s ((i1 + s.kws1.length * i2 : Nat) : Int) = .ok (serializePair a b) := by
  have h1 : i1 < s.kws1.length := (List.getElem?_eq_some_iff.mp ha).1
  have h2 : i2 < s.kws2.length := (List.getElem?_eq_some_iff.mp hb).1
  have hlt : i1 + s.kws1.length * i2 < s.kws1.length * s.kws2.length := by
    calc i1 + s.kws1.length * i2 < s.kws1.length + s.kws1.length * i2 := by omega
      _ = s.kws1.length * (i2 + 1) := by ring
      _ ≤ s.kws1.length * s.kws2.length := Nat.mul_le_mul_left _ h2
  have hx31 : i1 + s.kws1.length * i2 < 2 ^ 31 := lt_trans hlt hN
  have hi1 : i1 < 2 ^ 31 := lt_of_le_of_lt (Nat.le_add_right _ _) hx31
  have hi2 : i2 < 2 ^ 31 := by
    have : i2 ≤ s.kws1.length * i2 := Nat.le_mul_of_pos_left _ (by omega)
    exact lt_of_le_of_lt (le_trans this (Nat.le_add_left _ _)) hx31
  have h3164 : (2 : Nat) ^ 31 < 2 ^ 64 := by norm_num
  have hnum := numCombinations_eq s hN
  have hne : numCombinations s ≠ 0 := by
    rw [hnum]; exact_mod_cast (by omega : s.kws1.length * s.kws2.length ≠ 0)
  have htemp : Int.tmod ((i1 + s.kws1.length * i2 : Nat) : Int) (numCombinations s)
      = ((i1 + s.kws1.length * i2 : Nat) : Int) := by
    rw [hnum]
    apply Int.tmod_eq_of_lt (Int.natCast_nonneg _)
    exact_mod_cast hlt
  have hmod : (i1 + s.kws1.length * i2) % s.kws1.length = i1 := by
    rw [Nat.add_mul_mod_self_left]; exact Nat.mod_eq_of_lt h1
  have hdiv : (i1 + s.kws1.length * i2) / s.kws1.length = i2 := by
    rw [Nat.add_mul_div_left _ _ (by omega : 0 < s.kws1.length)]
    rw [Nat.div_eq_of_lt h1]; simp
  unfold getCombination
  rw [if_neg hne]
  simp only [htemp]
  rw [toSizeT_natCast (lt_trans hx31 h3164), hmod, hdiv]
  rw [toInt32_of_nonneg_lt (Int.natCast_nonneg _) (by exact_mod_cast hi1),
    toInt32_of_nonneg_lt (Int.natCast_nonneg _) (by exact_mod_cast hi2)]
  rw [toSizeT_natCast (lt_trans hi1 h3164), toSizeT_natCast (lt_trans hi2 h3164), ha, hb]

/-- Each index below `n1 * n2` is `i1 + n1 * i2` for exactly one pair of positions. -/
theorem rowMajor_unique (n1 n2 i : Nat) (hi : i < n1 * n2) :
    ∃! p : Nat × Nat, p.1 < n1 ∧ p.2 < n2 ∧ p.1 + n1 * p.2 = i := by
  have hn1 : 0 < n1 := by
    rcases Nat.eq_zero_or_pos n1 with h | h
    · subst h; simp at hi
    · exact h
  refine ⟨(i % n1, i / n1), ⟨Nat.mod_lt _ hn1, ?_, Nat.mod_add_div i n1⟩, ?_⟩
  · exact Nat.div_lt_of_lt_mul hi
  · rintro ⟨j1, j2⟩ ⟨hj1, _, hj⟩
    simp only at hj1 hj
    subst hj
    have hmod : (j1 + n1 * j2) % n1 = j1 := by
      rw [Nat.add_mul_mod_self_left]; exact Nat.mod_eq_of_lt hj1
    have hdiv : (j1 + n1 * j2) / n1 = j2 := by
      rw [Nat.add_mul_div_left _ _ hn1, Nat.div_eq_of_lt hj1]; simp
    rw [hmod, hdiv]

/-- C10. In a scope whose number of combinations fits the `int` that `numCombinations()`
returns, `numCombinations()` is `|kws1| * |kws2|`, `getCombination(i1 + |kws1| * i2)` is the
serialization of the pair `(kws1[i1], kws2[i2])` for all positions `i1`, `i2` of the two
keyword lists, and every index `0 .. numCombinations() - 1` is `i1 + |kws1| * i2` for exactly
one pair of positions. -/
theorem getCombination_rowMajor (s : ResearchScope)
    (hN : s.kws1.length * s.kws2.length < 2 ^ 31) :
    numCombinations s = ((s.kws1.length * s.kws2.length : Nat) : Int) ∧
    (∀ (i1 i2 : Nat) (a b : String), s.kws1[i1]? = some a → s.kws2[i2]? = some b →
      getCombination s ((i1 + s.kws1.length * i2 : Nat) : Int) = .ok (serializePair a b)) ∧
    (∀ i : Nat, (i : Int) < numCombinations s →
      ∃! p : Nat × Nat, p.1 < s.kws1.length ∧ p.2 < s.kws2.length ∧
        p.1 + s.kws1.length * p.2 = i) := by
  refine ⟨numCombinations_eq s hN, fun i1 i2 a b ha hb => getCombination_of_lt s hN i1 i2 a b ha hb,
    fun i hi => ?_⟩
  rw [numCombinations_eq s hN] at hi
  exact rowMajor_unique _ _ i (by exact_mod_cast hi)

/-- The scope of the spec's end-to-end scenario: `kws1 = {ai}`, `kws2 = {health, law}`. -/
theorem getCombination_rowMajor_witness :
    numCombinations ⟨"db", ["ai"], ["health", "law"]⟩ = ((1 * 2 : Nat) : Int) ∧
    getCombination ⟨"db", ["ai"], ["health", "law"]⟩ ((0 + 1 * 1 : Nat) : Int)
      = .ok (serializePair "ai" "law") :=
  ⟨(getCombination_rowMajor ⟨"db", ["ai"], ["health", "law"]⟩ (by decide)).1,
   (getCombination_rowMajor ⟨"db", ["ai"], ["health", "law"]⟩ (by decide)).2.1 0 1 "ai" "law"
     (by decide) (by decide)⟩

/-- C9. In the scope `kws1 = {ai}`, `kws2 = {health, law}`, which has two combinations,
`getCombination(-1)` indexes `_kws2` out of range, while `getCombination(-1 + 2)` is the
serialization `ai&law` of combination 1: a negative index does not wrap. -/
theorem getCombination_negative_index :
    numCombinations ⟨"db", ["ai"], ["health", "law"]⟩ = 2 ∧
    getCombination ⟨"db", ["ai"], ["health", "law"]⟩ (-1) = .error .outOfRange ∧
    getCombination ⟨"db", ["ai"], ["health", "law"]⟩ (-1 + 2) = .ok "ai&law" := by
  decide

/-- For an index that is not negative, `getCombination` does wrap: adding the number of
combinations to the index does not change the result (while the sum still fits an `int`). -/
theorem getCombination_wraps_of_nonneg (s : ResearchScope) (i : Int) (h0 : 0 ≤ i)
    (hN : 0 < numCombinations s) :
    getCombination s (i + numCombinations s) = getCombination s i := by
  have ht : Int.tmod (i + numCombinations s) (numCombinations s) =
      Int.tmod i (numCombinations s) := by
    rw [Int.tmod_eq_emod (by omega) (le_of_lt hN), Int.tmod_eq_emod h0 (le_of_lt hN)]
    exact Int.add_emod_self
  unfold getCombination
  rw [ht]

/-! ## Token records -/

theorem sqlite3_exec_single (db : Store) (st : Stmt) :
    sqlite3_exec db [st] =
      match execStmt db st with
      | none => (false, db, [])
      | some (db1, rows) => (true, db1, rows) := by
  cases h : execStmt db st with
  | none => simp only [sqlite3_exec, h]
  | some p =>
    obtain ⟨db1, rows⟩ := p
    simp only [sqlite3_exec, h, List.append_nil]

theorem load_token_eq (s : ResearchScope) (db : Store) (idxComb y : Int) (c : String)
    (hc : getCombination s idxComb = .ok c) :
    load_token s db idxComb y =
      .ok (decide (∃ r ∈ db.tokens, r.combination = c ∧ r.year = y)) := by
  unfold load_token
  rw [hc]
  simp only [sqlite3_exec_single, execStmt]
  by_cases h : ∃ r ∈ db.tokens, r.combination = c ∧ r.year = y
  · obtain ⟨r, hr, hrc, hry⟩ := h
    have hne : List.filter (fun q => decide (q.combination = c ∧ q.year = y)) db.tokens ≠ [] := by
      intro hnil
      have : r ∈ List.filter (fun q => decide (q.combination = c ∧ q.year = y)) db.tokens :=
        List.mem_filter.mpr ⟨hr, by simp [hrc, hry]⟩
      rw [hnil] at this
      exact List.not_mem_nil _ this
    have hdec : decide (∃ r ∈ db.tokens, r.combination = c ∧ r.year = y) = true :=
      decide_eq_true ⟨r, hr, hrc, hry⟩
    rw [hdec]
    simp only [hne, List.length_map, List.length_eq_zero, List.map_eq_nil_iff, Bool.true_eq_false,
      or_self, if_false, false_or, reduceCtorEq]
  · have hnil : List.filter (fun q => decide (q.combination = c ∧ q.year = y)) db.tokens = [] := by
      rw [List.filter_eq_nil_iff]
      intro r hr hd
      exact h ⟨r, hr, by simpa using hd⟩
    have hdec : decide (∃ r ∈ db.tokens, r.combination = c ∧ r.year = y) = false :=
      decide_eq_false h
    rw [hdec, hnil]
    simp

/-- C8. When `getCombination(idxComb)` is the combination `c`, `load(idxComb, y)` returns
true exactly when table `openalex_tokens` holds a record for `(c, y)`; the answer is the same
whatever table `openalex_queries` holds; and after a `save(idxComb, y)` that returned true,
which writes no Query Record, `load(idxComb, y)` returns true. -/
theorem load_token_iff_token (s : ResearchScope) (db : Store) (idxComb y : Int) (c : String)
    (hc : getCombination s idxComb = .ok c) :
    (load_token s db idxComb y = .ok true ↔
      ∃ r ∈ db.tokens, r.combination = c ∧ r.year = y) ∧
    (load_token s db idxComb y = .ok true ∨ load_token s db idxComb y = .ok false) ∧
    (∀ qs : List QueryRow,
      load_token s { db with queries := qs } idxComb y = load_token s db idxComb y) ∧
    (∀ (t : Int) (db1 : Store), save_token s t db idxComb y = .ok (true, db1) →
      db1.queries = db.queries ∧ load_token s db1 idxComb y = .ok true) := by
  refine ⟨?_, ?_, ?_, ?_⟩
  · rw [load_token_eq s db idxComb y c hc]
    constructor
    · intro h
      have : decide (∃ r ∈ db.tokens, r.combination = c ∧ r.year = y) = true := by
        injection h
      exact of_decide_eq_true this
    · intro h
      rw [decide_eq_true h]
  · rw [load_token_eq s db idxComb y c hc]
    cases decide (∃ r ∈ db.tokens, r.combination = c ∧ r.year = y) <;> simp
  · intro qs
    rw [load_token_eq s _ idxComb y c hc, load_token_eq s db idxComb y c hc]
  · intro t db1 hsave
    unfold save_token at hsave
    rw [hc] at hsave
    simp only [sqlite3_exec_single, execStmt] at hsave
    split_ifs at hsave with hex
    · simp at hsave
    · simp only [Except.ok.injEq, Prod.mk.injEq, true_and] at hsave
      subst hsave
      refine ⟨rfl, ?_⟩
      rw [load_token_eq s _ idxComb y c hc]
      have : ∃ r ∈ (db.tokens ++ [({ combination := c, year := y, updateTime := toInt32 t } : TokenRow)]),
          r.combination = c ∧ r.year = y :=
        ⟨_, List.mem_append_right _ (List.mem_singleton_self _), rfl, rfl⟩
      rw [decide_eq_true this]

/-- The spec's scenario: on the empty store, `save(0, 2020)` succeeds and `load(0, 2020)`
then returns true, with no Query Record ever written. -/
theorem load_token_iff_token_witness :
    getCombination ⟨"db", ["ai"], ["health", "law"]⟩ 0 = .ok "ai&health" ∧
    save_token ⟨"db", ["ai"], ["health", "law"]⟩ 1700000000 ⟨[], [], []⟩ 0 2020
      = .ok (true, ⟨[], [], [⟨"ai&health", 2020, 1700000000⟩]⟩) ∧
    load_token ⟨"db", ["ai"], ["health", "law"]⟩ ⟨[], [], [⟨"ai&health", 2020, 1700000000⟩]⟩ 0 2020
      = .ok true :=
  ⟨by decide, by decide,
   ((load_token_iff_token ⟨"db", ["ai"], ["health", "law"]⟩ ⟨[], [], []⟩ 0 2020 "ai&health"
      (by decide)).2.2.2 1700000000 ⟨[], [], [⟨"ai&health", 2020, 1700000000⟩]⟩ (by decide)).2⟩

/-! ## Saving publications -/

/-- What `save(pubs)` does with a publication that SQLite does not accept: for a title with a
quote character and for an id of `2 ^ 64 - 1` it returns false and stores nothing, the first
time and the second. -/
theorem save_pubs_rejected_rows :
    save_pubs emptyStore [(7, { pub5 with id := 7, title := "it\x27s" })] =
      .ok (false, emptyStore) ∧
    save_pubs emptyStore
        [(18446744073709551615, { pub5 with id := 18446744073709551615 })] =
      .ok (false, emptyStore) := by
  decide

/-! ## Query records -/

/-- C1. In the spec's scenario (`storeAfterFetch`: the Query Record for combination 0 and
2020 has ref_ids `5`, publication 5 is not stored) `getMissingRefIds(0, 2020, out)` does not
return true with `out = [5]`: its second `sqlite3_exec` runs both statements of the stream,
the row of the first one has no column `id`, and `std::stoull` throws on it. The same happens
once publication 5 is stored. -/
theorem getMissingRefIds_scenario :
    save_query scenarioScope 1700000000 emptyStore 0 2020 [(1, pub1), (2, pub2)]
      = .ok (true, storeAfterFetch) ∧
    getMissingRefIds scenarioScope storeAfterFetch 0 2020 [] = .error .invalidArgument ∧
    getMissingRefIds scenarioScope
      { storeAfterFetch with publications := storeAfterFetch.publications ++ [pubRowOf pub5] }
      0 2020 [] = .error .invalidArgument := by
  decide

/-- On every store, `getMissingRefIds` does not return true: when the Query Record exists,
its row is again the first row of `data.results` after the second `sqlite3_exec`, and
`std::stoull` throws on its absent column `id`. -/
theorem getMissingRefIds_never_true (s : ResearchScope) (db : Store) (idxComb y : Int)
    (newRefIds out : List Nat) :
    getMissingRefIds s db idxComb y newRefIds ≠ .ok (true, out) := by
  unfold getMissingRefIds
  cases hc : getCombination s idxComb with
  | error e => simp
  | ok c =>
    simp only [sqlite3_exec_single, execStmt]
    cases hq : List.filter (fun q => decide (q.combination = c ∧ q.year = y)) db.queries with
    | nil => simp
    | cons q qs =>
      have hcol : Row.col [("combination", Cell.text q.combination), ("year", Cell.num q.year),
          ("ref_ids", Cell.idList q.refIds)] "ref_ids" = Cell.idList q.refIds := by
        simp [Row.col, List.lookup]
      have hid : Row.col [("combination", Cell.text q.combination), ("year", Cell.num q.year),
          ("ref_ids", Cell.idList q.refIds)] "id" = Cell.text "" := by
        simp [Row.col, List.lookup]
      simp only [List.map_cons, hcol, splitIds, inListOf, List.singleton_append, sqlite3_exec,
        execStmt, hq, List.cons_append, collectIds, hid]
      simp [stoull]

/-! ## Loading publications -/

theorem mem_keys_assign (k : Nat) (p : Publication) (m : PubMap) (x : Nat) :
    x ∈ (PubMap.assign k p m).map Prod.fst ↔ x = k ∨ x ∈ m.map Prod.fst := by
  induction m with
  | nil => simp [PubMap.assign]
  | cons e m ih =>
    obtain ⟨k1, p1⟩ := e
    unfold PubMap.assign
    split_ifs with h1 h2
    · simp
    · subst h2; simp
    · simp only [List.map_cons, List.mem_cons, ih]
      tauto

theorem fillPubs_keys (mkPub : Row → Except Fault Publication) (rows : List Row)
    (acc m : PubMap) (h : fillPubs mkPub rows acc = .ok m) :
    ∀ x ∈ acc.map Prod.fst, x ∈ m.map Prod.fst := by
  induction rows generalizing acc with
  | nil =>
    simp only [fillPubs, Except.ok.injEq] at h
    subst h
    exact fun x hx => hx
  | cons r rs ih =>
    unfold fillPubs at h
    cases hr : mkPub r with
    | error e => rw [hr] at h; simp at h
    | ok p =>
      rw [hr] at h
      intro x hx
      exact ih _ h x ((mem_keys_assign _ _ _ _).mpr (Or.inr hx))


/-- On every store, `load(idxComb, y, pubsOfY)` returns true only if the constructor
accepted the row of a Query Record, and the publication made from that row is then an entry
of `pubsOfY`. -/
theorem load_pubs_true_only_with_query_row (mkPub : Row → Except Fault Publication)
    (s : ResearchScope) (db : Store) (idxComb y : Int) (pubsOfY : PubMap)
    (h : load_pubs mkPub s db idxComb y = .ok (true, pubsOfY)) :
    ∃ q ∈ db.queries, ∃ p,
      mkPub [("combination", .text q.combination), ("year", .num q.year),
             ("ids", .idList q.ids)] = .ok p ∧
      p.id ∈ pubsOfY.map Prod.fst := by
  unfold load_pubs at h
  cases hc : getCombination s idxComb with
  | error e => rw [hc] at h; simp at h
  | ok c =>
    rw [hc] at h
    simp only [sqlite3_exec_single, execStmt] at h
    cases hq : List.filter (fun q => decide (q.combination = c ∧ q.year = y)) db.queries with
    | nil => rw [hq] at h; simp at h
    | cons q qs =>
      have hqmem : q ∈ db.queries :=
        (List.mem_filter.mp (hq ▸ List.mem_cons_self q qs)).1
      have hcol : Row.col [("combination", Cell.text q.combination), ("year", Cell.num q.year),
          ("ids", Cell.idList q.ids)] "ids" = Cell.idList q.ids := by
        simp [Row.col, List.lookup]
      rw [hq] at h
      simp only [List.map_cons, hcol, inListOf, List.singleton_append, sqlite3_exec,
        execStmt, hq, List.cons_append, fillPubs, List.nil_append] at h
      cases hm : mkPub [("combination", Cell.text q.combination), ("year", Cell.num q.year),
          ("ids", Cell.idList q.ids)] with
      | error e => rw [hm] at h; simp at h
      | ok p =>
        rw [hm] at h
        dsimp only at h
        refine ⟨q, hqmem, p, hm, ?_⟩
        split at h
        · simp at h
        · rename_i m hf
          simp only [Except.ok.injEq, Prod.mk.injEq, true_and] at h
          subst h
          exact fillPubs_keys mkPub _ _ _ hf p.id (by simp [PubMap.assign])

/-- C7. Whatever the constructor `Publication(result)` does (`mkPub`):
on `storeAfterFetch`, whose Query Record for combination 0 and 2020 names the stored
publications 1 and 2, `load(0, 2020, pubsOfY)` can return true only if the constructor
accepted the Query Record's own row (columns `combination`, `year`, `ids`), and the
publication made from that row is then an entry of `pubsOfY`; and on
`storeAfterEmptyFetch`, whose Query Record names no publication, `load(0, 2020, pubsOfY)`
does not return true with an empty `pubsOfY`. The second `sqlite3_exec` runs both statements
of the stream. -/
theorem load_pubs_reads_query_row (mkPub : Row → Except Fault Publication) :
    (∀ pubsOfY : PubMap,
      load_pubs mkPub scenarioScope storeAfterFetch 0 2020 = .ok (true, pubsOfY) →
      ∃ p, mkPub [("combination", .text "ai&health"), ("year", .num 2020),
                  ("ids", .idList [1, 2])] = .ok p ∧
        p.id ∈ pubsOfY.map Prod.fst) ∧
    load_pubs mkPub scenarioScope storeAfterEmptyFetch 0 2020 ≠ .ok (true, []) := by
  have hc : getCombination scenarioScope 0 = .ok "ai&health" := by decide
  constructor
  · intro pubsOfY h
    have h1 : sqlite3_exec storeAfterFetch [.selectQueryIds "ai&health" 2020] =
        (true, storeAfterFetch, [[("combination", .text "ai&health"), ("year", .num 2020),
          ("ids", .idList [1, 2])]]) := by decide
    have h2 : sqlite3_exec storeAfterFetch ([.selectQueryIds "ai&health" 2020] ++
        [.selectPubs (inListOf (Row.col [("combination", .text "ai&health"), ("year", .num 2020),
          ("ids", .idList [1, 2])] "ids"))]) =
        (true, storeAfterFetch, [[("combination", .text "ai&health"), ("year", .num 2020),
          ("ids", .idList [1, 2])], (pubRowOf pub1).cells, (pubRowOf pub2).cells]) := by decide
    unfold load_pubs at h
    simp only [hc, h1, h2] at h
    unfold fillPubs at h
    cases hq : mkPub [("combination", .text "ai&health"), ("year", .num 2020),
        ("ids", .idList [1, 2])] with
    | error e => rw [hq] at h; simp at h
    | ok p =>
      rw [hq] at h
      dsimp only at h
      refine ⟨p, rfl, ?_⟩
      cases hf : fillPubs mkPub [(pubRowOf pub1).cells, (pubRowOf pub2).cells]
          (PubMap.assign p.id p []) with
      | error e => rw [hf] at h; simp at h
      | ok m =>
        rw [hf] at h
        simp only [Except.ok.injEq, Prod.mk.injEq, true_and] at h
        subst h
        exact fillPubs_keys mkPub _ _ _ hf p.id (by simp [PubMap.assign])
  · intro h
    have h1 : sqlite3_exec storeAfterEmptyFetch [.selectQueryIds "ai&health" 2020] =
        (true, storeAfterEmptyFetch, [[("combination", .text "ai&health"), ("year", .num 2020),
          ("ids", .idList [])]]) := by decide
    have h2 : sqlite3_exec storeAfterEmptyFetch ([.selectQueryIds "ai&health" 2020] ++
        [.selectPubs (inListOf (Row.col [("combination", .text "ai&health"), ("year", .num 2020),
          ("ids", .idList [])] "ids"))]) =
        (true, storeAfterEmptyFetch, [[("combination", .text "ai&health"), ("year", .num 2020),
          ("ids", .idList [])]]) := by decide
    unfold load_pubs at h
    simp only [hc, h1, h2] at h
    unfold fillPubs at h
    cases hq : mkPub [("combination", .text "ai&health"), ("year", .num 2020),
        ("ids", .idList [])] with
    | error e => rw [hq] at h; simp at h
    | ok p =>
      rw [hq] at h
      simp only [fillPubs, PubMap.assign, Except.ok.injEq, Prod.mk.injEq, true_and] at h
      exact absurd h (by simp)

/-! ## The worker without cancellation -/

/-- C4. On the chain of task `A` and task `B`, one step each, the worker started by
`runAll()` calls `doStep(0)` of the head `A` twice, once per chain element, and never calls
a `doStep` of `B`. -/
theorem runAll_repeats_head_steps :
    stepCalls (runAll (fun _ => false) true [loggingTask "A" 1, loggingTask "B" 1]
      freshWorker).events = [(0, 0), (0, 0)] ∧
    (runAll (fun _ => false) true [loggingTask "A" 1, loggingTask "B" 1]
      freshWorker).state = [("A", 0), ("A", 0)] := by
  decide

/-- C6, counterexample. For step counts 2, 0, 1 the progress events are ten: for each of the
three chain elements the head's name at 0, 50 and 100, and then `Done` (with progress 0);
they are not the four events task 1 at 50, task 1 at 100, task 3 at 100, `Done`. -/
theorem runAll_progress_2_0_1 :
    progressEvents (runAll (fun _ => false) true
      [loggingTask "t1" 2, loggingTask "t2" 0, loggingTask "t3" 1] freshWorker).events =
      [("t1", 1, 3, 0), ("t1", 1, 3, 50), ("t1", 1, 3, 100),
       ("t1", 1, 3, 0), ("t1", 1, 3, 50), ("t1", 1, 3, 100),
       ("t1", 1, 3, 0), ("t1", 1, 3, 50), ("t1", 1, 3, 100),
       ("Done", 3, 3, 0)] := by
  decide

theorem stepLoop_no_cancel {σ : Type} (this : AbstractTask σ) (pos : Nat) (numTasks n : Int)
    (remaining : Nat) (stepId : Int) (w : Worker σ) :
    ∃ w1 es, stepLoop (fun _ => false) true this pos numTasks n remaining stepId w = (false, w1) ∧
      w1.events = w.events ++ es ∧
      es.map progressOf = (List.range remaining).flatMap
        (fun k => [none, some (taskProgress (stepId + (k : Int)) n)]) := by
  induction remaining generalizing stepId w with
  | zero => exact ⟨w, [], rfl, by simp, by simp⟩
  | succ m ih =>
    obtain ⟨w1, es, h1, h2, h3⟩ := ih (stepId + 1)
      ({ state := this.doStep stepId w.state,
         events := w.events ++ [Event.doStep pos stepId] ++
           [Event.report this.name (getTaskId pos) numTasks (taskProgress stepId n)],
         loads := w.loads + 1 + 1, cancelled := false } : Worker σ)
    refine ⟨w1, [Event.doStep pos stepId,
      Event.report this.name (getTaskId pos) numTasks (taskProgress stepId n)] ++ es, ?_, ?_, ?_⟩
    · simp only [stepLoop, Worker.load, Worker.report, if_true, Bool.false_eq_true, if_false]
      exact h1
    · rw [h2]; simp
    · rw [List.range_succ_eq_map, List.flatMap_cons, List.flatMap_map, List.map_append, h3]
      simp only [List.map_cons, List.map_nil, progressOf, Nat.cast_zero, add_zero,
        List.cons_append, List.nil_append, List.cons.injEq, true_and]
      congr 1
      funext k
      simp only [Function.comp, Nat.succ_eq_add_one, Nat.cast_add, Nat.cast_one]
      rw [add_assoc, add_comm (1 : Int)]

theorem workerLoop_no_cancel {σ : Type} (this : AbstractTask σ) (pos : Nat) (numTasks : Int)
    (cells : List (AbstractTask σ)) (w : Worker σ) :
    ∃ (ns : List Int) (es : List Event), ns.length = cells.length ∧
      (workerLoop (fun _ => false) true this pos numTasks cells w).events =
        w.events ++ es ++ [Event.report "Done" numTasks numTasks 0] ∧
      es.map progressOf = ns.flatMap blockShape := by
  induction cells generalizing w with
  | nil => exact ⟨[], [], rfl, by simp [workerLoop, Worker.report], by simp⟩
  | cons c rest ih =>
    obtain ⟨w1, es1, h1, h2, h3⟩ := stepLoop_no_cancel this pos numTasks
      (this.numSteps w.state) (this.numSteps w.state).toNat 0
      ({ state := w.state,
         events := w.events ++ [Event.report this.name (getTaskId pos) numTasks 0],
         loads := w.loads + 1, cancelled := false } : Worker σ)
    obtain ⟨ns, es, hlen, hev, hshape⟩ := ih w1
    refine ⟨this.numSteps w.state :: ns,
      [Event.report this.name (getTaskId pos) numTasks 0] ++ es1 ++ es, by simp [hlen], ?_, ?_⟩
    · simp only [workerLoop, Worker.load, Worker.report, if_true, Bool.false_eq_true, if_false]
      rw [h1]
      simp only [hev, h2]
      simp
    · simp only [List.map_append, List.map_cons, List.map_nil, progressOf, h3, hshape,
        List.flatMap_cons, blockShape, zero_add]
      simp

theorem stepLoop_no_cancel_exact {σ : Type} (this : AbstractTask σ) (pos : Nat)
    (numTasks n : Int) (remaining : Nat) :
    ∀ (stepId : Int) (w : Worker σ),
      ∃ w1, stepLoop (fun _ => false) true this pos numTasks n remaining stepId w = (false, w1) ∧
        w1.events = w.events ++
          (List.range remaining).flatMap (fun k =>
            [Event.doStep pos (stepId + (k : Int)),
             Event.report this.name (getTaskId pos) numTasks
               (taskProgress (stepId + (k : Int)) n)]) ∧
        w1.state = (List.range remaining).foldl
          (fun st (k : Nat) => this.doStep (stepId + (k : Int)) st) w.state := by
  induction remaining with
  | zero => intro stepId w; exact ⟨w, rfl, by simp, by simp⟩
  | succ m ih =>
    intro stepId w
    obtain ⟨w1, hrun, hev, hst⟩ := ih (stepId + 1)
      ({ state := this.doStep stepId w.state,
         events := w.events ++ [Event.doStep pos stepId] ++
           [Event.report this.name (getTaskId pos) numTasks (taskProgress stepId n)],
         loads := w.loads + 1 + 1, cancelled := false } : Worker σ)
    have e1 : ∀ j : Nat, stepId + 1 + (j : Int) = stepId + ((j : Int) + 1) := by
      intro j; omega
    refine ⟨w1, ?_, ?_, ?_⟩
    · simp only [stepLoop, Worker.load, Worker.report, if_true, Bool.false_eq_true, if_false]
      exact hrun
    · rw [hev, List.range_succ_eq_map, List.flatMap_cons, List.flatMap_map]
      simp only [Function.comp, Nat.succ_eq_add_one, Nat.cast_add, Nat.cast_one, Nat.cast_zero,
        add_zero, List.append_assoc, List.cons_append, List.nil_append, e1]
    · rw [hst, List.range_succ_eq_map, List.foldl_cons, List.foldl_map]
      simp only [Nat.succ_eq_add_one, Nat.cast_add, Nat.cast_one, Nat.cast_zero, add_zero, e1]

theorem workerLoop_no_cancel_exact {σ : Type} (t : AbstractTask σ) (pos : Nat)
    (numTasks : Int) (cells : List (AbstractTask σ)) :
    ∀ w : Worker σ,
      (workerLoop (fun _ => false) true t pos numTasks cells w).events =
        w.events ++ repeatedBlocks t pos numTasks cells.length w.state ++
          [Event.report "Done" numTasks numTasks 0] := by
  induction cells with
  | nil => intro w; simp [workerLoop, Worker.report, repeatedBlocks]
  | cons c rest ih =>
    intro w
    obtain ⟨w1, hrun, hev, hst⟩ := stepLoop_no_cancel_exact t pos numTasks
      (t.numSteps w.state) (t.numSteps w.state).toNat 0
      ({ state := w.state,
         events := w.events ++ [Event.report t.name (getTaskId pos) numTasks 0],
         loads := w.loads + 1, cancelled := false } : Worker σ)
    have hw : workerLoop (fun _ => false) true t pos numTasks (c :: rest) w =
        workerLoop (fun _ => false) true t pos numTasks rest w1 := by
      simp only [workerLoop, Worker.load, Worker.report, if_true, Bool.false_eq_true, if_false]
      rw [hrun]
    have hst1 : w1.state = blockState t w.state := by
      rw [hst]; simp only [blockState, zero_add]
    rw [hw, ih w1, hev, hst1]
    simp only [List.length_cons, repeatedBlocks, blockEvents, zero_add, List.append_assoc,
      List.cons_append, List.nil_append]

theorem runAllFrom_skips {σ : Type} (chain post : List (AbstractTask σ)) (t : AbstractTask σ)
    (pre : List (AbstractTask σ)) :
    ∀ (pos : Nat) (w : Worker σ),
      (∀ u ∈ pre, ¬ (u.numSteps w.state > 0 ∧ u.finished w.state = false)) →
      (t.numSteps w.state > 0 ∧ t.finished w.state = false) →
      runAllFrom (fun _ => false) true chain pos (pre ++ t :: post) w =
        workerLoop (fun _ => false) true t (pos + pre.length) (getNumTasks chain) (t :: post)
          { w with cancelled := false } := by
  induction pre with
  | nil =>
    intro pos w _ hrun
    simp only [List.nil_append, List.length_nil, Nat.add_zero]
    unfold runAllFrom
    dsimp only
    rw [if_pos hrun]
  | cons u pre ih =>
    intro pos w hpre hrun
    have hu := hpre u (List.mem_cons_self _ _)
    have h := ih (pos + 1) ({ w with cancelled := false })
      (fun v hv => hpre v (List.mem_cons_of_mem _ hv)) hrun
    have hlen : pos + (u :: pre).length = pos + 1 + pre.length := by
      simp only [List.length_cons]; omega
    rw [hlen, List.cons_append]
    unfold runAllFrom
    dsimp only
    rw [if_neg hu, if_pos (by simp)]
    exact h

theorem runAllFrom_nothing_to_run {σ : Type} (chain : List (AbstractTask σ))
    (pre : List (AbstractTask σ)) :
    ∀ (pos : Nat) (w : Worker σ), pre ≠ [] →
      (∀ u ∈ pre, ¬ (u.numSteps w.state > 0 ∧ u.finished w.state = false)) →
      (runAllFrom (fun _ => false) true chain pos pre w).events =
        w.events ++ [Event.report "Done" (getNumTasks chain) (getNumTasks chain) 100] := by
  induction pre with
  | nil => intro _ _ h; exact absurd rfl h
  | cons u pre ih =>
    intro pos w _ hpre
    have hu := hpre u (List.mem_cons_self _ _)
    unfold runAllFrom
    dsimp only
    rw [if_neg hu]
    cases pre with
    | nil => simp [Worker.report]
    | cons v rest =>
      rw [if_pos (by simp)]
      exact ih (pos + 1) ({ w with cancelled := false }) (by simp)
        (fun x hx => hpre x (List.mem_cons_of_mem _ hx))

/-- C6, as amended. Let a chain be run by `runAll()` with a reporter and without
cancellation, from state `w`. If `t` is the first task in link order that has steps to run
(`numSteps() > 0` and not finished; the tasks `pre` before it have none), the calls made are
exactly: the progress event (name of `t`, position of `t`, chain length, 0); then for
`k = 0 .. n - 1`, `n` the step count of `t`, the call `doStep(k)` of `t` followed by the
progress event (name of `t`, position of `t`, chain length, `100 * (k + 1) / n`); then one
further block for every chain element after `t`, each an event at 0 followed by a `doStep`
call and an event per step (as the code stands these repeat the block of `t`); then one
final event labelled `Done`. The tasks before `t` get no event. If no task of the chain has
steps to run, the only call is one event labelled `Done`. -/
theorem runAll_progress_events {σ : Type} (pre post : List (AbstractTask σ))
    (t : AbstractTask σ) (w : Worker σ)
    (hpre : ∀ u ∈ pre, ¬ (u.numSteps w.state > 0 ∧ u.finished w.state = false)) :
    ((t.numSteps w.state > 0 ∧ t.finished w.state = false) →
      (runAll (fun _ => false) true (pre ++ t :: post) w).events =
        w.events ++
          (Event.report t.name (getTaskId pre.length) (getNumTasks (pre ++ t :: post)) 0 ::
            (List.range (t.numSteps w.state).toNat).flatMap (fun k =>
              [Event.doStep pre.length (k : Int),
               Event.report t.name (getTaskId pre.length) (getNumTasks (pre ++ t :: post))
                 (taskProgress (k : Int) (t.numSteps w.state))])) ++
          repeatedBlocks t pre.length (getNumTasks (pre ++ t :: post)) post.length
            (blockState t w.state) ++
          [Event.report "Done" (getNumTasks (pre ++ t :: post))
            (getNumTasks (pre ++ t :: post)) 0]) ∧
    (pre ≠ [] →
      (runAll (fun _ => false) true pre w).events =
        w.events ++ [Event.report "Done" (getNumTasks pre) (getNumTasks pre) 100]) := by
  constructor
  · intro hrun
    unfold runAll
    rw [runAllFrom_skips (pre ++ t :: post) post t pre 0 w hpre hrun,
      workerLoop_no_cancel_exact]
    simp only [Nat.zero_add, List.length_cons, repeatedBlocks, blockEvents, List.append_assoc,
      List.cons_append, List.nil_append]
  · intro hne
    exact runAllFrom_nothing_to_run pre pre 0 w hne hpre

/-- C6 as amended, instance: the chain with step counts 2, 0, 1 (the head is the first task
with steps to run), and the chain of one task with no step. -/
theorem runAll_progress_events_witness :
    (∀ u ∈ ([] : List (AbstractTask (List (String × Int)))),
      ¬ (u.numSteps freshWorker.state > 0 ∧ u.finished freshWorker.state = false)) ∧
    ((loggingTask "t1" 2).numSteps freshWorker.state > 0 ∧
      (loggingTask "t1" 2).finished freshWorker.state = false) ∧
    (runAll (fun _ => false) true
        ([] ++ loggingTask "t1" 2 :: [loggingTask "t2" 0, loggingTask "t3" 1])
        freshWorker).events =
      freshWorker.events ++
        (Event.report (loggingTask "t1" 2).name (getTaskId ([] : List Nat).length)
            (getNumTasks ([] ++ loggingTask "t1" 2 :: [loggingTask "t2" 0, loggingTask "t3" 1]))
            0 ::
          (List.range ((loggingTask "t1" 2).numSteps freshWorker.state).toNat).flatMap (fun k =>
            [Event.doStep ([] : List Nat).length (k : Int),
             Event.report (loggingTask "t1" 2).name (getTaskId ([] : List Nat).length)
               (getNumTasks
                 ([] ++ loggingTask "t1" 2 :: [loggingTask "t2" 0, loggingTask "t3" 1]))
               (taskProgress (k : Int) ((loggingTask "t1" 2).numSteps freshWorker.state))])) ++
        repeatedBlocks (loggingTask "t1" 2) ([] : List Nat).length
          (getNumTasks ([] ++ loggingTask "t1" 2 :: [loggingTask "t2" 0, loggingTask "t3" 1]))
          [loggingTask "t2" 0, loggingTask "t3" 1].length
          (blockState (loggingTask "t1" 2) freshWorker.state) ++
        [Event.report "Done"
          (getNumTasks ([] ++ loggingTask "t1" 2 :: [loggingTask "t2" 0, loggingTask "t3" 1]))
          (getNumTasks ([] ++ loggingTask "t1" 2 :: [loggingTask "t2" 0, loggingTask "t3" 1]))
          0] ∧
    (runAll (fun _ => false) true [loggingTask "t" 0] freshWorker).events =
      freshWorker.events ++ [Event.report "Done" 1 1 100] :=
  ⟨by simp, by decide,
   (runAll_progress_events [] [loggingTask "t2" 0, loggingTask "t3" 1] (loggingTask "t1" 2)
      freshWorker (by simp)).1 (by decide),
   (runAll_progress_events [loggingTask "t" 0] [] (loggingTask "t" 0) freshWorker
      (by decide)).2 (by simp)⟩

/-! ## Cancellation -/

theorem taskProgress_eq (k : Nat) (n : Int) (hk : (k : Int) < n) (hn : 100 * n < 2 ^ 31) :
    taskProgress (k : Int) n = 100 * ((k : Int) + 1) / n := by
  unfold taskProgress
  have h0 : (0 : Int) ≤ 100 * ((k : Int) + 1) := by positivity
  rw [toInt32_of_nonneg_lt h0 (by omega)]
  exact Int.tdiv_eq_ediv h0 (by omega)

theorem stepLoop_cancel {σ : Type} (cancel : Nat → Bool) (this : AbstractTask σ) (pos : Nat)
    (numTasks n : Int) (d : Nat) :
    ∀ (remaining : Nat) (stepId : Int) (w : Worker σ), d < remaining →
      (∀ i, i < 2 * d → cancel (w.loads + i) = false) →
      cancel (w.loads + 2 * d) = true → cancel (w.loads + (2 * d + 1)) = true →
      ∃ w1, stepLoop cancel true this pos numTasks n remaining stepId w = (true, w1) ∧
        w1.events = w.events ++
          (List.range d).flatMap (fun j =>
            [Event.doStep pos (stepId + (j : Int)),
             Event.report this.name (getTaskId pos) numTasks
               (taskProgress (stepId + (j : Int)) n)]) ++
          [Event.doStep pos (stepId + (d : Int)),
           Event.report "Cancelled" (getTaskId pos) numTasks
             (taskProgress (stepId + (d : Int)) n)] ∧
        w1.cancelled = false ∧
        w1.state = (List.range (d + 1)).foldl
          (fun st (j : Nat) => this.doStep (stepId + (j : Int)) st) w.state := by
  induction d with
  | zero =>
    intro remaining stepId w hrem _ hb hc
    obtain ⟨m, rfl⟩ : ∃ m, remaining = m + 1 := ⟨remaining - 1, by omega⟩
    simp only [Nat.mul_zero, Nat.add_zero, Nat.zero_add] at hb hc
    refine ⟨
      ({ state := this.doStep stepId w.state,
         events := w.events ++ [Event.doStep pos stepId] ++
           [Event.report "Cancelled" (getTaskId pos) numTasks (taskProgress stepId n)],
         loads := w.loads + 1 + 1, cancelled := false } : Worker σ), ?_, ?_, rfl, ?_⟩
    · simp only [stepLoop, Worker.load, Worker.report, if_true, hb, hc]
    · simp
    · simp [List.range_succ]
  | succ d ih =>
    intro remaining stepId w hrem hbefore hb hc
    obtain ⟨m, rfl⟩ : ∃ m, remaining = m + 1 := ⟨remaining - 1, by omega⟩
    have h0 : cancel w.loads = false := by simpa using hbefore 0 (by omega)
    have h1 : cancel (w.loads + 1) = false := hbefore 1 (by omega)
    obtain ⟨w1, hrun, hev, hcl, hst⟩ := ih m (stepId + 1)
      ({ state := this.doStep stepId w.state,
         events := w.events ++ [Event.doStep pos stepId] ++
           [Event.report this.name (getTaskId pos) numTasks (taskProgress stepId n)],
         loads := w.loads + 1 + 1, cancelled := false } : Worker σ)
      (by omega)
      (fun i hi => by
        have := hbefore (i + 2) (by omega)
        simpa [Nat.add_assoc, Nat.add_comm 2 i] using this)
      (by
        have : w.loads + 1 + 1 + 2 * d = w.loads + 2 * (d + 1) := by omega
        simp only [this]; exact hb)
      (by
        have : w.loads + 1 + 1 + (2 * d + 1) = w.loads + (2 * (d + 1) + 1) := by omega
        simp only [this]; exact hc)
    refine ⟨w1, ?_, ?_, hcl, ?_⟩
    · simp only [stepLoop, Worker.load, Worker.report, if_true, h0, h1, Bool.false_eq_true,
        if_false]
      exact hrun
    · rw [hev, List.range_succ_eq_map, List.flatMap_cons, List.flatMap_map]
      simp only [Function.comp, Nat.succ_eq_add_one, Nat.cast_add, Nat.cast_one, Nat.cast_zero,
        add_zero, List.append_assoc, List.cons_append, List.nil_append]
      have e1 : ∀ j : Nat, stepId + 1 + (j : Int) = stepId + ((j : Int) + 1) := by
        intro j; omega
      simp only [e1]
    · rw [hst, List.range_succ_eq_map (d + 1), List.foldl_cons, List.foldl_map]
      simp only [Nat.succ_eq_add_one, Nat.cast_add, Nat.cast_one, Nat.cast_zero, add_zero]
      have e1 : ∀ j : Nat, stepId + 1 + (j : Int) = stepId + ((j : Int) + 1) := by
        intro j; omega
      simp only [e1]

/-- C5. Let the worker, with a reporter installed, turn to a chain element in state `w`, let
`n` be the step count it reads there and `k < n`. If `cancel()` is requested while
`doStep(k)` is executing, that is, every load of `_cancelled` before that call returns false
and the two loads after it return true, then the worker runs `doStep(0) .. doStep(k)` to
completion, each followed by its progress event, the one after `doStep(k)` labelled
`Cancelled` with progress `100 * (k + 1) / n` being the last event; no further `doStep` is
called and the chain is not advanced; and `_cancelled` is false when the worker stops. -/
theorem cancel_during_doStep {σ : Type} (cancel : Nat → Bool) (this : AbstractTask σ)
    (pos : Nat) (numTasks : Int) (task : AbstractTask σ) (next : List (AbstractTask σ))
    (w : Worker σ) (k : Nat)
    (hk : (k : Int) < this.numSteps w.state)
    (hbefore : ∀ i, i ≤ 2 * k → cancel (w.loads + i) = false)
    (hduring : cancel (w.loads + (2 * k + 1)) = true)
    (hafter : cancel (w.loads + (2 * k + 2)) = true) :
    (workerLoop cancel true this pos numTasks (task :: next) w).events =
      w.events ++ [Event.report this.name (getTaskId pos) numTasks 0] ++
        (List.range k).flatMap (fun j =>
          [Event.doStep pos (j : Int),
           Event.report this.name (getTaskId pos) numTasks
             (taskProgress (j : Int) (this.numSteps w.state))]) ++
        [Event.doStep pos (k : Int),
         Event.report "Cancelled" (getTaskId pos) numTasks
           (taskProgress (k : Int) (this.numSteps w.state))] ∧
    (workerLoop cancel true this pos numTasks (task :: next) w).cancelled = false ∧
    (workerLoop cancel true this pos numTasks (task :: next) w).state =
      (List.range (k + 1)).foldl (fun st (j : Nat) => this.doStep (j : Int) st) w.state ∧
    (100 * this.numSteps w.state < 2 ^ 31 →
      taskProgress (k : Int) (this.numSteps w.state) =
        100 * ((k : Int) + 1) / this.numSteps w.state) := by
  have h0 : cancel w.loads = false := by simpa using hbefore 0 (by omega)
  obtain ⟨w1, hrun, hev, hcl, hst⟩ := stepLoop_cancel cancel this pos numTasks
    (this.numSteps w.state) k (this.numSteps w.state).toNat 0
    ({ state := w.state,
       events := w.events ++ [Event.report this.name (getTaskId pos) numTasks 0],
       loads := w.loads + 1, cancelled := false } : Worker σ)
    (by omega)
    (fun i hi => by
      have := hbefore (i + 1) (by omega)
      simpa [Nat.add_assoc, Nat.add_comm 1 i] using this)
    (by
      have : w.loads + 1 + 2 * k = w.loads + (2 * k + 1) := by omega
      simp only [this]; exact hduring)
    (by
      have : w.loads + 1 + (2 * k + 1) = w.loads + (2 * k + 2) := by omega
      simp only [this]; exact hafter)
  have hw : workerLoop cancel true this pos numTasks (task :: next) w = w1 := by
    simp only [workerLoop, Worker.load, Worker.report, if_true, h0, Bool.false_eq_true, if_false]
    rw [hrun]
  rw [hw]
  refine ⟨?_, hcl, ?_, fun hn => taskProgress_eq k _ hk hn⟩
  · rw [hev]; simp only [zero_add]
  · rw [hst]; simp only [zero_add]

/-- C5, instance: a task with 5 steps at the head of a chain of two, `cancel()` requested
while `doStep(2)` is executing (the loads 0 .. 4 of `_cancelled` return false, the later ones
true). The last event is `Cancelled` at 60, and task `u` is never run. -/
theorem cancel_during_doStep_witness :
    ((2 : Nat) : Int) < (loggingTask "t" 5).numSteps freshWorker.state ∧
    (workerLoop (fun i => decide (5 ≤ i)) true (loggingTask "t" 5) 0 2
        (loggingTask "t" 5 :: [loggingTask "u" 1]) freshWorker).events =
      freshWorker.events ++ [Event.report (loggingTask "t" 5).name (getTaskId 0) 2 0] ++
        (List.range 2).flatMap (fun j =>
          [Event.doStep 0 (j : Int),
           Event.report (loggingTask "t" 5).name (getTaskId 0) 2
             (taskProgress (j : Int) ((loggingTask "t" 5).numSteps freshWorker.state))]) ++
        [Event.doStep 0 ((2 : Nat) : Int),
         Event.report "Cancelled" (getTaskId 0) 2
           (taskProgress ((2 : Nat) : Int) ((loggingTask "t" 5).numSteps freshWorker.state))] ∧
    (workerLoop (fun i => decide (5 ≤ i)) true (loggingTask "t" 5) 0 2
        (loggingTask "t" 5 :: [loggingTask "u" 1]) freshWorker).cancelled = false ∧
    taskProgress ((2 : Nat) : Int) ((loggingTask "t" 5).numSteps freshWorker.state) = 60 :=
  have h := cancel_during_doStep (fun i => decide (5 ≤ i)) (loggingTask "t" 5) 0 2
    (loggingTask "t" 5) [loggingTask "u" 1] freshWorker 2 (by decide)
    (fun i hi => by
      have : ¬ (5 ≤ freshWorker.loads + i) := by
        show ¬ (5 ≤ 0 + i)
        omega
      exact decide_eq_false this)
    (by decide) (by decide)
  ⟨by decide, h.1, h.2.1, by decide⟩

/-! ## The order on keywords -/

theorem ltChars_nil_right (a : List Char) : ltChars a [] = false := by
  cases a <;> rfl

theorem ltChars_asymm (a b : List Char) (h : ltChars a b = true) : ltChars b a = false := by
  induction a generalizing b with
  | nil => exact ltChars_nil_right b
  | cons x xs ih =>
    cases b with
    | nil => simp [ltChars] at h
    | cons y ys =>
      simp only [ltChars] at h ⊢
      split_ifs at h ⊢
      all_goals first | rfl | omega | exact ih ys h

theorem ltChars_trans (a b c : List Char) (h1 : ltChars a b = true) (h2 : ltChars b c = true) :
    ltChars a c = true := by
  induction a generalizing b c with
  | nil =>
    cases c with
    | nil => rw [ltChars_nil_right] at h2; exact h2
    | cons z zs => rfl
  | cons x xs ih =>
    cases b with
    | nil => simp [ltChars] at h1
    | cons y ys =>
      cases c with
      | nil => simp [ltChars] at h2
      | cons z zs =>
        simp only [ltChars] at h1 h2 ⊢
        split_ifs at h1 h2 ⊢
        all_goals first | rfl | omega | exact ih ys zs h1 h2

theorem ltChars_total (a b : List Char) (h1 : ltChars a b = false) (h2 : ltChars b a = false) :
    a = b := by
  induction a generalizing b with
  | nil =>
    cases b with
    | nil => rfl
    | cons y ys => simp [ltChars] at h1
  | cons x xs ih =>
    cases b with
    | nil => simp [ltChars] at h2
    | cons y ys =>
      simp only [ltChars] at h1 h2
      split_ifs at h1 h2 with h3 h4
      have hxy : x = y := by
        apply Char.ext
        apply UInt32.ext
        show x.toNat = y.toNat
        omega
      rw [hxy, ih ys h1 h2]

theorem strLt_asymm (a b : String) (h : strLt a b = true) : strLt b a = false :=
  ltChars_asymm _ _ h

theorem strLt_trans (a b c : String) (h1 : strLt a b = true) (h2 : strLt b c = true) :
    strLt a c = true :=
  ltChars_trans _ _ _ h1 h2

theorem strLt_total (a b : String) (h1 : strLt a b = false) (h2 : strLt b a = false) : a = b :=
  String.ext (ltChars_total _ _ h1 h2)

theorem serializePair_comm (a b : String) : serializePair a b = serializePair b a := by
  unfold serializePair
  cases hab : strLt a b with
  | true => simp [strLt_asymm a b hab]
  | false =>
    cases hba : strLt b a with
    | true => simp
    | false => simp [strLt_total a b hab hba]

/-! ## Canonical serialization -/

theorem mem_combinationEntries (s : ResearchScope) (e : String) :
    e ∈ combinationEntries s ↔ ∃ a ∈ s.kws1, ∃ b ∈ s.kws2, e = serializePair a b := by
  unfold combinationEntries serializePair
  simp only [List.mem_flatMap, List.mem_map]
  constructor
  · rintro ⟨a, ha, b, hb, rfl⟩
    exact ⟨a, ha, b, hb, rfl⟩
  · rintro ⟨a, ha, b, hb, rfl⟩
    exact ⟨a, ha, b, hb, rfl⟩

theorem getCombination_singletons (path a b : String) :
    getCombination ⟨path, [a], [b]⟩ 0 = .ok (serializePair a b) := by
  have h := getCombination_of_lt ⟨path, [a], [b]⟩ (by norm_num) 0 0 a b rfl rfl
  simpa using h

/-- C11. For all keywords `a` and `b`: the serialization of the pair is the same whichever of
the two comes from `kws1`; it is one of the two terms, then `&`, then the other, the second
not smaller than the first; `getCombination` returns it for the scope with `kws1 = {a}`,
`kws2 = {b}` and for the scope with the two lists exchanged, and it is the entry that
`getCombinations` writes for either scope. For every scope, exchanging the two keyword lists
leaves the set of entries of `getCombinations` the same, and, while the number of
combinations fits an `int`, `getCombination` returns the same text for the pair at
positions `(i1, i2)` and, with the lists exchanged, at positions `(i2, i1)`. -/
theorem serializePair_order_independent (path a b : String) :
    serializePair a b = serializePair b a ∧
    (∃ lo hi, serializePair a b = lo ++ "&" ++ hi ∧ strLt hi lo = false ∧
      ((lo = a ∧ hi = b) ∨ (lo = b ∧ hi = a))) ∧
    getCombination ⟨path, [a], [b]⟩ 0 = .ok (serializePair a b) ∧
    getCombination ⟨path, [b], [a]⟩ 0 = .ok (serializePair a b) ∧
    combinationEntries ⟨path, [a], [b]⟩ = [serializePair a b] ∧
    combinationEntries ⟨path, [b], [a]⟩ = [serializePair a b] ∧
    (∀ (s : ResearchScope) (e : String),
      e ∈ combinationEntries s ↔ e ∈ combinationEntries ⟨s.path, s.kws2, s.kws1⟩) ∧
    (∀ (s : ResearchScope) (i1 i2 : Nat) (x y : String),
      s.kws1.length * s.kws2.length < 2 ^ 31 →
      s.kws1[i1]? = some x → s.kws2[i2]? = some y →
      getCombination s ((i1 + s.kws1.length * i2 : Nat) : Int) = .ok (serializePair x y) ∧
      getCombination ⟨s.path, s.kws2, s.kws1⟩ ((i2 + s.kws2.length * i1 : Nat) : Int)
        = .ok (serializePair x y)) := by
  refine ⟨serializePair_comm a b, ?_, getCombination_singletons path a b, ?_, ?_, ?_, ?_, ?_⟩
  · unfold serializePair
    cases hab : strLt a b with
    | true => exact ⟨a, b, by simp, strLt_asymm a b hab, Or.inl ⟨rfl, rfl⟩⟩
    | false => exact ⟨b, a, by simp, hab, Or.inr ⟨rfl, rfl⟩⟩
  · rw [serializePair_comm a b]
    exact getCombination_singletons path b a
  · simp [combinationEntries, serializePair]
  · rw [serializePair_comm a b]
    simp [combinationEntries, serializePair]
  · intro s e
    rw [mem_combinationEntries, mem_combinationEntries]
    constructor
    · rintro ⟨x, hx, y, hy, rfl⟩
      exact ⟨y, hy, x, hx, serializePair_comm x y⟩
    · rintro ⟨y, hy, x, hx, rfl⟩
      exact ⟨x, hx, y, hy, serializePair_comm y x⟩
  · intro s i1 i2 x y hN hx hy
    refine ⟨getCombination_of_lt s hN i1 i2 x y hx hy, ?_⟩
    rw [serializePair_comm x y]
    exact getCombination_of_lt ⟨s.path, s.kws2, s.kws1⟩ (by rw [Nat.mul_comm]; exact hN)
      i2 i1 y x hy hx

/-- C11, instance: the keywords `law` and `ai`, and the scope of the scenario with its lists
exchanged. -/
theorem serializePair_order_independent_witness :
    serializePair "law" "ai" = "ai&law" ∧
    serializePair "law" "ai" = serializePair "ai" "law" ∧
    getCombination ⟨"westseer.db", ["law"], ["ai"]⟩ 0 = .ok (serializePair "law" "ai") ∧
    (getCombination scenarioScope ((0 + scenarioScope.kws1.length * 1 : Nat) : Int)
        = .ok (serializePair "ai" "law") ∧
      getCombination ⟨scenarioScope.path, scenarioScope.kws2, scenarioScope.kws1⟩
        ((1 + scenarioScope.kws2.length * 0 : Nat) : Int) = .ok (serializePair "ai" "law")) :=
  ⟨by decide,
   (serializePair_order_independent "westseer.db" "law" "ai").1,
   (serializePair_order_independent "westseer.db" "law" "ai").2.2.1,
   (serializePair_order_independent "westseer.db" "law" "ai").2.2.2.2.2.2.2
     scenarioScope 0 1 "ai" "law" (by decide) (by decide) (by decide)⟩

/-! ## The terminal progress event -/

/-- Whenever `runAll()` starts the worker on the head of a chain and no cancellation is
requested, the last call of the worker is `report("Done", n, n, 0)`. -/
theorem runAll_worker_done (σ : Type) (t : AbstractTask σ) (rest : List (AbstractTask σ))
    (w : Worker σ) (hrun : t.numSteps w.state > 0 ∧ t.finished w.state = false) :
    ∃ es : List Event,
      (runAll (fun _ => false) true (t :: rest) w).events =
        w.events ++ es ++
          [Event.report "Done" (getNumTasks (t :: rest)) (getNumTasks (t :: rest)) 0] := by
  obtain ⟨ns, es, _, hev, _⟩ := workerLoop_no_cancel t 0 (getNumTasks (t :: rest))
    (t :: rest) ({ w with cancelled := false })
  refine ⟨es, ?_⟩
  unfold runAll runAllFrom
  dsimp only
  rw [if_pos hrun]
  exact hev

/-- C12. A chain of one task with one step, run by the worker without cancellation, ends
with the event `Done` at progress 0, not 100; the chain of one task with no step, passed
through synchronously, ends with `Done` at progress 100. -/
theorem runAll_done_progress :
    progressEvents (runAll (fun _ => false) true [loggingTask "t" 1] freshWorker).events =
      [("t", 1, 1, 0), ("t", 1, 1, 100), ("Done", 1, 1, 0)] ∧
    progressEvents (runAll (fun _ => false) true [loggingTask "t" 0] freshWorker).events =
      [("Done", 1, 1, 100)] := by
  decide

/-! ## The constructors -/

theorem perm_insertAscending (x : String) (l : List String) :
    (insertAscending x l).Perm (x :: l) := by
  induction l with
  | nil => exact List.Perm.refl _
  | cons y ys ih =>
    unfold insertAscending
    split_ifs
    · exact List.Perm.refl _
    · exact (List.Perm.cons y ih).trans (List.Perm.swap x y ys)

theorem perm_stdSort (l : List String) : (stdSort l).Perm l := by
  induction l with
  | nil => exact List.Perm.refl _
  | cons x xs ih =>
    show (insertAscending x (stdSort xs)).Perm (x :: xs)
    exact (perm_insertAscending x _).trans (List.Perm.cons x ih)

theorem ascending_insertAscending (x : String) (l : List String)
    (hl : l.Pairwise (fun a b => strLt b a = false)) :
    (insertAscending x l).Pairwise (fun a b => strLt b a = false) := by
  induction l with
  | nil => simp [insertAscending]
  | cons y ys ih =>
    obtain ⟨hy, hys⟩ := List.pairwise_cons.mp hl
    unfold insertAscending
    split_ifs with hxy
    · refine List.pairwise_cons.mpr ⟨?_, hl⟩
      intro z hz
      rcases List.mem_cons.mp hz with rfl | hz
      · exact strLt_asymm _ _ hxy
      · cases hzx : strLt z x with
        | false => rfl
        | true =>
          have := strLt_trans z x y hzx hxy
          rw [hy z hz] at this
          exact absurd this (by simp)
    · refine List.pairwise_cons.mpr ⟨?_, ih hys⟩
      intro z hz
      rcases List.mem_cons.mp ((perm_insertAscending x ys).subset hz) with rfl | hz
      · simpa using hxy
      · exact hy z hz

theorem ascending_stdSort (l : List String) :
    (stdSort l).Pairwise (fun a b => strLt b a = false) := by
  induction l with
  | nil => exact List.Pairwise.nil
  | cons x xs ih => exact ascending_insertAscending x _ ih

/-- C13, counterexample. The constructor `ResearchScope(path, "a,b,a;x")` accepts its input
and leaves `kws1 = a, a, b`, which repeats `a` and so is not strictly ascending. -/
theorem ofKeywords_keeps_duplicates :
    ResearchScope.ofKeywords splitString "westseer.db" "a,b,a;x" =
      .ok { path := "westseer.db", kws1 := ["a", "a", "b"], kws2 := ["x"] } ∧
    ¬ (["a", "a", "b"] : List String).Pairwise (fun k1 k2 => strLt k1 k2 = true) ∧
    ¬ (["a", "a", "b"] : List String).Nodup := by
  decide

/-- C13, as amended. Whatever `splitString` and `normalize` return: the scope built by
`ResearchScope(path, kws1, kws2)`, and every scope built by `ResearchScope(path, keywords)`
when it accepts its input (`keywords` split at `;` into exactly two parts), has two keyword
lists that are each ascending (no keyword is greater than one after it) and hold exactly the
parts that `splitString` returned at `,`, each as often as it was returned. -/
theorem constructors_sort_keywords (split : String → String → List String)
    (normalize : String → String) (path kws1 kws2 keywords : String) :
    ((ResearchScope.ofKeywordLists split normalize path kws1 kws2).kws1.Pairwise
        (fun a b => strLt b a = false) ∧
      (ResearchScope.ofKeywordLists split normalize path kws1 kws2).kws1.Perm
        (split (normalize kws1) ",") ∧
      (ResearchScope.ofKeywordLists split normalize path kws1 kws2).kws2.Pairwise
        (fun a b => strLt b a = false) ∧
      (ResearchScope.ofKeywordLists split normalize path kws1 kws2).kws2.Perm
        (split (normalize kws2) ",")) ∧
    (∀ s, ResearchScope.ofKeywords split path keywords = .ok s →
      ∃ k1 k2, split keywords ";" = [k1, k2] ∧
        s.kws1.Pairwise (fun a b => strLt b a = false) ∧ s.kws1.Perm (split k1 ",") ∧
        s.kws2.Pairwise (fun a b => strLt b a = false) ∧ s.kws2.Perm (split k2 ",")) ∧
    ((∃ k1 k2, split keywords ";" = [k1, k2]) ∨
      ResearchScope.ofKeywords split path keywords = .error .invalidArgument) := by
  refine ⟨⟨ascending_stdSort _, perm_stdSort _, ascending_stdSort _, perm_stdSort _⟩, ?_, ?_⟩
  · intro s hs
    unfold ResearchScope.ofKeywords at hs
    split at hs
    · rename_i k1 k2 hsplit
      simp only [Except.ok.injEq] at hs
      subst hs
      exact ⟨k1, k2, hsplit, ascending_stdSort _, perm_stdSort _, ascending_stdSort _,
        perm_stdSort _⟩
    · simp at hs
  · unfold ResearchScope.ofKeywords
    split
    · rename_i k1 k2 hsplit
      exact Or.inl ⟨k1, k2, hsplit⟩
    · exact Or.inr rfl

/-- C13 as amended, instance: the input `a,b,a;x` with the modelled `splitString`. -/
theorem constructors_sort_keywords_witness :
    ResearchScope.ofKeywords splitString "westseer.db" "a,b,a;x" =
      .ok { path := "westseer.db", kws1 := ["a", "a", "b"], kws2 := ["x"] } ∧
    ∃ k1 k2, splitString "a,b,a;x" ";" = [k1, k2] ∧
      (["a", "a", "b"] : List String).Pairwise (fun a b => strLt b a = false) ∧
      (["a", "a", "b"] : List String).Perm (splitString k1 ",") ∧
      (["x"] : List String).Pairwise (fun a b => strLt b a = false) ∧
      (["x"] : List String).Perm (splitString k2 ",") :=
  ⟨by decide,
   (constructors_sort_keywords splitString (fun k => k) "westseer.db" "" "" "a,b,a;x").2.1
     { path := "westseer.db", kws1 := ["a", "a", "b"], kws2 := ["x"] } (by decide)⟩

end WESTSeer
